import Mathlib

/-!
Shallow embedding of the client-side data-shaping logic of the
sugar-glucose-tracker application (src/app/page.tsx) and of its offline
cache controller (the service worker), together with proofs of the
specified properties.

Conventions of the embedding:
* JavaScript numbers are modelled as rationals (`ℚ`); `Math.round` is
  `⌊x + 1/2⌋` (round half towards +∞), which is its behaviour on every
  value relevant here.
* A reading's timestamp is modelled as a wall-clock `DateTime` record
  (year, month, day, hour, minute).  The application stores timestamps as
  canonical ISO-like strings "YYYY-MM-DDTHH:MM…" whose lexicographic
  order coincides with the lexicographic order of the components, so the
  string comparison `a.date < b.date` of the source is embedded as the
  comparison of the numeric key `DateTime.key`.
* JavaScript's stable `Array.prototype.sort` with a total preorder
  comparator is embedded as `List.insertionSort`, which is also a stable
  sort and therefore produces the same list.
-/

/-- `Math.round` of JavaScript on a rational: round half towards +∞. -/
def jsRound (q : ℚ) : ℤ := ⌊q + 1/2⌋

/-- `Math.round(x * 10) / 10` of the source: round to one decimal. -/
def round10 (q : ℚ) : ℚ := (jsRound (q * 10) : ℚ) / 10

/-- Wall-clock timestamp of a reading (local time components). -/
structure DateTime where
  year : Nat
  month : Nat
  day : Nat
  hour : Nat
  minute : Nat
deriving DecidableEq, Repr

/-- Numeric key whose order is the lexicographic order of the components,
hence (for canonically formatted strings) the string order the source
uses in `sortEntriesByDateDesc`. -/
def DateTime.key (d : DateTime) : Nat :=
  (((d.year * 100 + d.month) * 100 + d.day) * 100 + d.hour) * 100 + d.minute

/-- The `period` tag of a reading (`Entry["period"]`). -/
inductive Period where
  | Fasting
  | PreMeal
  | PostMeal
deriving DecidableEq, Repr

/-- The display name of a period, as the source stores it. -/
def Period.name : Period → String
  | .Fasting => "Fasting"
  | .PreMeal => "Pre-Meal"
  | .PostMeal => "Post-Meal"

/-- The `Entry` record of src/app/page.tsx. -/
structure Entry where
  id : String
  value : ℚ
  date : DateTime
  period : Period
  note : Option String
deriving DecidableEq, Repr

/-- `TARGET_RANGE` of the source. -/
def TARGET_RANGE_lowUpper : ℚ := 4.4

def TARGET_RANGE_highLower : ℚ := 7.8

/-- Reading-quality category. -/
inductive ReadingCategory where
  | low
  | good
  | high
deriving DecidableEq, Repr

/-- `getReadingCategory` of the source. -/
def getReadingCategory (value : ℚ) : ReadingCategory :=
  if value < TARGET_RANGE_lowUpper then .low
  else if value > TARGET_RANGE_highLower then .high
  else .good

/-- Result record of the `averages` memo of the source. -/
structure Summary where
  average : ℚ
  recent : ℚ
  trend : ℚ
deriving DecidableEq, Repr

/-- The `averages` memo of the source (`computeSummary` of the spec).
`recentEntries = entries.slice(0, Math.min(3, entries.length))` and
`recentEntries.length || 1` are translated literally. -/
def computeSummary (entries : List Entry) : Summary :=
  if entries.isEmpty then ⟨0, 0, 0⟩
  else
    let values := entries.map (·.value)
    let avg : ℚ := values.sum / (values.length : ℚ)
    let recentEntries := entries.take (min 3 entries.length)
    let recentLen : ℚ :=
      if recentEntries.length = 0 then 1 else (recentEntries.length : ℚ)
    let recentAvg : ℚ := (recentEntries.map (·.value)).sum / recentLen
    ⟨round10 avg, round10 recentAvg, round10 (recentAvg - avg)⟩

/-- `sortEntriesByDateDesc` of the source: a stable sort, descending by
the stored timestamp string (embedded as the comparison of `DateTime.key`;
the comparator `a.date < b.date ? 1 : -1` puts `a` no later than `b`
exactly when `b.date ≤ a.date`). -/
def sortEntriesByDateDesc (l : List Entry) : List Entry :=
  List.insertionSort (fun a b => b.date.key ≤ a.date.key) l

/-- Modelled from the spec's words (claim side, for comparison with
`computeSummary`): the mean of the `value`s of the `min 3 n` entries with
the greatest timestamps, rounded to one decimal. -/
def specRecentAverage (l : List Entry) : ℚ :=
  let top := (sortEntriesByDateDesc l).take (min 3 l.length)
  round10 ((top.map (·.value)).sum / (top.length : ℚ))

/-! ### Helper lemmas about rounding and means -/

lemma round10_mono {q r : ℚ} (h : q ≤ r) : round10 q ≤ round10 r := by
  unfold round10 jsRound
  have hfloor : ⌊q * 10 + 1/2⌋ ≤ ⌊r * 10 + 1/2⌋ :=
    Int.floor_le_floor (by linarith)
  have : ((⌊q * 10 + 1/2⌋ : ℤ) : ℚ) ≤ ((⌊r * 10 + 1/2⌋ : ℤ) : ℚ) :=
    Int.cast_le.mpr hfloor
  exact div_le_div_of_nonneg_right this (by norm_num) |>.trans_eq rfl

lemma mean_le {xs : List ℚ} (hne : xs ≠ []) {M : ℚ} (h : ∀ x ∈ xs, x ≤ M) :
    xs.sum / (xs.length : ℚ) ≤ M := by
  have hlen : 0 < (xs.length : ℚ) := by
    exact_mod_cast List.length_pos.mpr hne
  have hsum : xs.sum ≤ (xs.length : ℚ) * M := by
    simpa [nsmul_eq_mul] using List.sum_le_card_nsmul xs M h
  rw [div_le_iff₀ hlen]
  linarith

lemma le_mean {xs : List ℚ} (hne : xs ≠ []) {m : ℚ} (h : ∀ x ∈ xs, m ≤ x) :
    m ≤ xs.sum / (xs.length : ℚ) := by
  have hlen : 0 < (xs.length : ℚ) := by
    exact_mod_cast List.length_pos.mpr hne
  have hsum : (xs.length : ℚ) * m ≤ xs.sum := by
    simpa [nsmul_eq_mul] using List.card_nsmul_le_sum xs m h
  rw [le_div_iff₀ hlen]
  linarith

lemma take_min_three (l : List Entry) : l.take (min 3 l.length) = l.take 3 := by
  rcases le_total 3 l.length with h | h
  · rw [min_eq_left h]
  · rw [min_eq_right h, List.take_of_length_le h, List.take_of_length_le (by omega)]

/-! ### C9: empty collection -/

/-- C9: `computeSummary` applied to the empty collection returns
`{average := 0, recentAverage := 0, trend := 0}` (and, being a total Lean
function, does not fail). -/
theorem C9_computeSummary_empty :
    computeSummary [] = { average := 0, recent := 0, trend := 0 } := rfl

/-! ### C8: reading-quality thresholds -/

/-- C8: the derived category is "low" exactly when the value is `< 4.4`,
"high" exactly when it is `> 7.8`, "good" otherwise; in particular
`4.4 ↦ good`, `7.8 ↦ good`, `4.3 ↦ low`, `7.9 ↦ high`. -/
theorem C8_getReadingCategory_thresholds :
    (∀ v : ℚ,
      (getReadingCategory v = .low ↔ v < 4.4)
      ∧ (getReadingCategory v = .high ↔ 7.8 < v)
      ∧ (getReadingCategory v = .good ↔ 4.4 ≤ v ∧ v ≤ 7.8))
    ∧ getReadingCategory 4.4 = .good
    ∧ getReadingCategory 7.8 = .good
    ∧ getReadingCategory 4.3 = .low
    ∧ getReadingCategory 7.9 = .high := by
  refine ⟨fun v => ?_, ?_, ?_, ?_, ?_⟩
  · simp only [getReadingCategory, TARGET_RANGE_lowUpper, TARGET_RANGE_highLower]
    split_ifs with h1 h2
    · refine ⟨iff_of_true rfl h1, iff_of_false (by simp) (by linarith),
        iff_of_false (by simp) (by rintro ⟨hc, -⟩; linarith)⟩
    · refine ⟨iff_of_false (by simp) h1, iff_of_true rfl h2,
        iff_of_false (by simp) (by rintro ⟨-, hc⟩; linarith)⟩
    · exact ⟨iff_of_false (by simp) h1, iff_of_false (by simp) h2,
        iff_of_true rfl ⟨not_lt.mp h1, not_lt.mp h2⟩⟩
  · norm_num [getReadingCategory, TARGET_RANGE_lowUpper, TARGET_RANGE_highLower]
  · norm_num [getReadingCategory, TARGET_RANGE_lowUpper, TARGET_RANGE_highLower]
  · norm_num [getReadingCategory, TARGET_RANGE_lowUpper, TARGET_RANGE_highLower]
  · norm_num [getReadingCategory, TARGET_RANGE_lowUpper, TARGET_RANGE_highLower]

/-! ### C1: recent average -/

/-- Entries used as concrete counterexample inputs. -/
def ceEntry (v : ℚ) (d : Nat) : Entry :=
  ⟨toString d, v, ⟨2024, 1, d, 8, 0⟩, .Fasting, none⟩

/-- An ascending-by-timestamp collection on which the code's
`recentAverage` (mean of the first 3 array elements) differs from the mean
of the 3 greatest-timestamp entries. -/
def c1Input : List Entry :=
  [ceEntry 1 1, ceEntry 2 2, ceEntry 3 3, ceEntry 10 4]

/-- C1 counterexample: on an unordered collection, `recentAverage` is not
the rounded mean of the values of the 3 entries with the greatest
timestamps (the code averages the first 3 array elements instead). -/
theorem C1_counterexample :
    (computeSummary c1Input).recent ≠ specRecentAverage c1Input := by
  norm_num [computeSummary, specRecentAverage, c1Input, ceEntry,
    sortEntriesByDateDesc, List.insertionSort, List.orderedInsert,
    DateTime.key, round10, jsRound]

lemma summary_recent_eq (l : List Entry) (h : l ≠ []) :
    (computeSummary l).recent
      = round10 (((l.take 3).map (·.value)).sum / (((l.take 3).length : ℕ) : ℚ)) := by
  unfold computeSummary
  rw [if_neg (by simpa using h)]
  have htake : l.take (min 3 l.length) = l.take 3 := take_min_three l
  have hlen : (l.take 3).length ≠ 0 := by
    simp only [List.length_take]
    have : 0 < l.length := List.length_pos.mpr h
    omega
  simp only [htake, if_neg hlen]

/-- C1 (amended): for every non-empty collection, `recentAverage` equals
the mean of the `value`s of the first `min 3 n` entries in the
collection's given order, rounded to one decimal (these are the 3
most-recent entries exactly when the collection is ordered descending by
timestamp). -/
theorem C1_recentAverage (l : List Entry) (h : l ≠ []) :
    (computeSummary l).recent
      = round10 (((l.take 3).map (·.value)).sum / (((l.take 3).length : ℕ) : ℚ)) :=
  summary_recent_eq l h

/-- Witness for C1 at a concrete input. -/
theorem C1_recentAverage_witness :
    c1Input ≠ []
    ∧ (computeSummary c1Input).recent
      = round10 ((((c1Input.take 3)).map (·.value)).sum
          / (((c1Input.take 3).length : ℕ) : ℚ)) :=
  ⟨by simp [c1Input], C1_recentAverage c1Input (by simp [c1Input])⟩

/-! ### C2: outputs within min/max -/

/-- C2 counterexample: on the one-element collection with value `5.7`,
the `trend` output (`0.0`) lies outside `[min, max] = [5.7, 5.7]`; and on
the one-element collection with value `4.45`, the `average` output
(`4.5`, after rounding to one decimal) lies strictly above the maximum
input value. -/
theorem C2_counterexample :
    ¬ ((5.7 : ℚ) ≤ (computeSummary [ceEntry 5.7 1]).trend)
    ∧ ¬ ((computeSummary [ceEntry 4.45 1]).average ≤ (4.45 : ℚ)) := by
  constructor <;>
    norm_num [computeSummary, ceEntry, round10, jsRound]

/-- C2 (amended): for every non-empty collection, `average` and
`recentAverage` each lie within the closed interval from the minimum to
the maximum of the input values, both rounded to one decimal ( rounding
can push a mean outside the raw `[min, max]`, and `trend`, a difference,
need not lie in the interval at all). -/
theorem C2_summary_bounds (l : List Entry) (m M : ℚ) (hne : l ≠ [])
    (hmin : ∀ x ∈ l.map (·.value), m ≤ x)
    (hmax : ∀ x ∈ l.map (·.value), x ≤ M) :
    round10 m ≤ (computeSummary l).average
    ∧ (computeSummary l).average ≤ round10 M
    ∧ round10 m ≤ (computeSummary l).recent
    ∧ (computeSummary l).recent ≤ round10 M := by
  have hrec : (computeSummary l).recent
      = round10 (((l.take 3).map (·.value)).sum / (((l.take 3).length : ℕ) : ℚ)) :=
    summary_recent_eq l hne
  have havg : (computeSummary l).average
      = round10 ((l.map (·.value)).sum / ((l.map (·.value)).length : ℚ)) := by
    unfold computeSummary
    rw [if_neg (by simpa using hne)]
  have hvne : l.map (·.value) ≠ [] := by simpa using hne
  have htne : (l.take 3).map (·.value) ≠ [] := by
    simp only [ne_eq, List.map_eq_nil_iff, List.take_eq_nil_iff]
    simpa using hne
  have hminT : ∀ x ∈ (l.take 3).map (·.value), m ≤ x := fun x hx => by
    rcases List.mem_map.mp hx with ⟨e, he, rfl⟩
    exact hmin _ (List.mem_map.mpr ⟨e, List.mem_of_mem_take he, rfl⟩)
  have hmaxT : ∀ x ∈ (l.take 3).map (·.value), x ≤ M := fun x hx => by
    rcases List.mem_map.mp hx with ⟨e, he, rfl⟩
    exact hmax _ (List.mem_map.mpr ⟨e, List.mem_of_mem_take he, rfl⟩)
  have hlenT : (((l.take 3).length : ℕ) : ℚ) = (((l.take 3).map (·.value)).length : ℚ) := by
    simp
  refine ⟨?_, ?_, ?_, ?_⟩
  · rw [havg]; exact round10_mono (le_mean hvne hmin)
  · rw [havg]; exact round10_mono (mean_le hvne hmax)
  · rw [hrec, hlenT]; exact round10_mono (le_mean htne hminT)
  · rw [hrec, hlenT]; exact round10_mono (mean_le htne hmaxT)

/-- Witness for C2 at a concrete input. -/
theorem C2_summary_bounds_witness :
    ([ceEntry 5 1, ceEntry 6 2] ≠ [])
    ∧ (∀ x ∈ [ceEntry 5 1, ceEntry 6 2].map (·.value), (5:ℚ) ≤ x)
    ∧ (∀ x ∈ [ceEntry 5 1, ceEntry 6 2].map (·.value), x ≤ (6:ℚ))
    ∧ (round10 5 ≤ (computeSummary [ceEntry 5 1, ceEntry 6 2]).average
      ∧ (computeSummary [ceEntry 5 1, ceEntry 6 2]).average ≤ round10 6
      ∧ round10 5 ≤ (computeSummary [ceEntry 5 1, ceEntry 6 2]).recent
      ∧ (computeSummary [ceEntry 5 1, ceEntry 6 2]).recent ≤ round10 6) :=
  ⟨by simp,
   by simp [ceEntry]; norm_num,
   by simp [ceEntry]; norm_num,
   C2_summary_bounds _ 5 6 (by simp)
     (by simp [ceEntry]; norm_num)
     (by simp [ceEntry]; norm_num)⟩

/-! ### C7: offline cache controller (service worker fetch listener) -/

/-- A network response as the fetch listener observes it. -/
structure SWResponse where
  status : Nat
  respType : String
  body : String
deriving DecidableEq, Repr

/-- Outcome of the fetch listener.  `notIntercepted` is the early return
for non-GET requests (the request passes through untouched);
`responded r` is `event.respondWith` of the promise resolving with `r`,
where `responded none` is the promise resolving with `undefined` — which
the platform surfaces as a network error, i.e. the request fails. -/
inductive FetchResult where
  | notIntercepted
  | responded (r : Option SWResponse)
deriving DecidableEq, Repr

/-- The fetch listener of the service worker (src/unnamed/part_000,
lines 28–59).  `cached` is the result of `caches.match(event.request)`;
`network` is the settled result of `fetch(event.request)`. -/
def handleFetchEvent (method : String) (cached : Option SWResponse)
    (network : Except Unit SWResponse) : FetchResult :=
  if method ≠ "GET" then .notIntercepted
  else
    let fetchPromise : Option SWResponse :=
      match network with
      | .ok r => some r
      | .error _ => cached
    match cached with
    | some c => .responded (some c)
    | none => .responded fetchPromise

/-- The cache entry for the request's key after the listener runs: a
successful plain status-200 response not addressed to a browser-internal
scheme overwrites the entry; anything else leaves it unchanged. -/
def cacheAfterFetch (url : String) (cached : Option SWResponse)
    (network : Except Unit SWResponse) : Option SWResponse :=
  match network with
  | .ok r =>
      if r.status ≠ 200 ∨ r.respType = "opaque" ∨ url.startsWith "chrome-extension://"
      then cached
      else some r
  | .error _ => cached

/-- C7: for a GET request, a cached response is returned whenever one
exists (whatever the network does); with no cache entry, a successful
network fetch's response is returned; with no cache entry and a failing
network fetch the listener responds with `undefined`, which the platform
surfaces as a request failure, not a silent empty response. -/
theorem C7_fetch_case_analysis (method : String) (cached : Option SWResponse)
    (network : Except Unit SWResponse) (hget : method = "GET") :
    (∀ c, cached = some c →
      handleFetchEvent method cached network = .responded (some c))
    ∧ (∀ r, cached = none → network = .ok r →
      handleFetchEvent method cached network = .responded (some r))
    ∧ (cached = none → network = .error () →
      handleFetchEvent method cached network = .responded none) := by
  subst hget
  refine ⟨fun c hc => ?_, fun r hc hn => ?_, fun hc hn => ?_⟩ <;>
    subst hc <;> simp [handleFetchEvent] <;> subst hn <;> rfl

/-- Witness for C7 at a concrete input: no cache entry, failing network
fetch. -/
theorem C7_fetch_case_analysis_witness :
    ("GET" = "GET")
    ∧ ((∀ c, (none : Option SWResponse) = some c →
        handleFetchEvent "GET" none (.error ()) = .responded (some c))
      ∧ (∀ r, (none : Option SWResponse) = none →
        (Except.error () : Except Unit SWResponse) = Except.ok r →
        handleFetchEvent "GET" none (.error ()) = .responded (some r))
      ∧ ((none : Option SWResponse) = none →
        (Except.error () : Except Unit SWResponse) = Except.error () →
        handleFetchEvent "GET" none (.error ()) = .responded none)) :=
  ⟨rfl, C7_fetch_case_analysis "GET" none (.error ()) rfl⟩

/-! ### C4: pagination -/

/-- Fixed page size of the history table. -/
def PAGE_SIZE : Nat := 10

/-- `Math.ceil(n / PAGE_SIZE)` on natural numbers. -/
def jsCeilDiv (n m : Nat) : Nat := (n + m - 1) / m

/-- `Math.max(1, Math.ceil(n / PAGE_SIZE) || 1)` of the source. -/
def totalPages (n : Nat) : Nat :=
  max 1 (if jsCeilDiv n PAGE_SIZE = 0 then 1 else jsCeilDiv n PAGE_SIZE)

/-- `filteredEntries.slice(start, start + PAGE_SIZE)` with
`start = (page - 1) * PAGE_SIZE`. -/
def paginatedEntries (l : List Entry) (page : Nat) : List Entry :=
  (l.drop ((page - 1) * PAGE_SIZE)).take PAGE_SIZE

/-- `setCurrentPage((prev) => Math.min(prev, maxPage))`, run whenever the
filtered count changes. -/
def clampPage (prev n : Nat) : Nat := min prev (totalPages n)

lemma take_add' {α : Type} : ∀ (m n : Nat) (l : List α),
    l.take (m + n) = l.take m ++ (l.drop m).take n := by
  intro m
  induction m with
  | zero => simp
  | succ m ih =>
      intro n l
      cases l with
      | nil => simp
      | cons x xs =>
          simp only [List.take_succ_cons, List.drop_succ_cons, Nat.succ_add,
            List.cons_append, List.cons.injEq, true_and]
          exact ih n xs

lemma join_slices {α : Type} (k : Nat) (l : List α) :
    ((List.range k).map (fun i => (l.drop (i * 10)).take 10)).flatten
      = l.take (k * 10) := by
  induction k with
  | zero => simp
  | succ k ih =>
      rw [List.range_succ, List.map_append, List.flatten_append]
      simp only [List.map_cons, List.map_nil, List.flatten_cons, List.flatten_nil,
        List.append_nil, ih]
      rw [← take_add']
      congr 1
      ring

lemma length_le_totalPages_mul (n : Nat) : n ≤ totalPages n * PAGE_SIZE := by
  unfold totalPages jsCeilDiv PAGE_SIZE
  simp only [Nat.max_def]
  split_ifs <;> omega

lemma ceil_div_ten (n : Nat) : ⌈(n : ℚ) / 10⌉ = (((n + 9) / 10 : ℕ) : ℤ) := by
  have h1 : ((n + 9) / 10) * 10 ≤ n + 9 := Nat.div_mul_le_self _ _
  have h2 : n ≤ ((n + 9) / 10) * 10 := by omega
  have hc1 : ((((n + 9) / 10 : ℕ) : ℤ) : ℚ) * 10 ≤ (n : ℚ) + 9 := by
    exact_mod_cast h1
  have hc2 : (n : ℚ) ≤ ((((n + 9) / 10 : ℕ) : ℤ) : ℚ) * 10 := by
    exact_mod_cast h2
  rw [Int.ceil_eq_iff]
  constructor
  · rw [lt_div_iff₀ (by norm_num : (0:ℚ) < 10)]
    linarith
  · rw [div_le_iff₀ (by norm_num : (0:ℚ) < 10)]
    linarith

/-- C4: for a filtered list of `n` readings with page size 10, the number
of pages is `max 1 ⌈n / 10⌉`; concatenating the page slices for pages
`1 … totalPages` reproduces the filtered list in order (hence with no
duplicates or omissions); and the clamp applied on every change of the
filtered count sends any current page `prev ≥ 1` into `[1, totalPages]`. -/
theorem C4_pagination (l : List Entry) (prev : Nat) (hprev : 1 ≤ prev) :
    (totalPages l.length : ℤ) = max 1 ⌈(l.length : ℚ) / 10⌉
    ∧ ((List.range (totalPages l.length)).map
        (fun i => paginatedEntries l (i + 1))).flatten = l
    ∧ 1 ≤ clampPage prev l.length
    ∧ clampPage prev l.length ≤ totalPages l.length := by
  refine ⟨?_, ?_, ?_, ?_⟩
  · rw [ceil_div_ten]
    unfold totalPages jsCeilDiv PAGE_SIZE
    split_ifs with h
    · push_cast
      omega
    · push_cast
      omega
  · have hre : (fun i => paginatedEntries l (i + 1))
        = fun i => (l.drop (i * 10)).take 10 := by
      funext i
      simp [paginatedEntries, PAGE_SIZE]
    have hlen : l.length ≤ totalPages l.length * 10 := by
      have h := length_le_totalPages_mul l.length
      simpa [PAGE_SIZE] using h
    rw [hre, join_slices]
    exact List.take_of_length_le hlen
  · unfold clampPage totalPages
    exact le_min hprev (le_max_left _ _)
  · unfold clampPage
    exact min_le_right _ _

/-- Witness for C4 at a concrete input. -/
theorem C4_pagination_witness :
    1 ≤ 3
    ∧ ((totalPages (c1Input.length) : ℤ) = max 1 ⌈((c1Input.length : ℚ)) / 10⌉
      ∧ ((List.range (totalPages c1Input.length)).map
          (fun i => paginatedEntries c1Input (i + 1))).flatten = c1Input
      ∧ 1 ≤ clampPage 3 c1Input.length
      ∧ clampPage 3 c1Input.length ≤ totalPages c1Input.length) :=
  ⟨by decide, C4_pagination c1Input 3 (by decide)⟩

/-! ### String helpers used by the filtering and export logic

`String.prototype.toLowerCase`, `trim` and `includes` of JavaScript are
embedded as character-list functions (the data handled by the
application is ASCII, on which `Char.toLower` agrees with
`toLowerCase`). -/

/-- `toLowerCase`. -/
def toLowerStr (s : String) : String := String.mk (s.data.map Char.toLower)

/-- Whitespace recognised by `trim`. -/
def isWS (c : Char) : Bool := c == ' ' || c == '\t' || c == '\n' || c == '\r'

/-- `trim`. -/
def trimStr (s : String) : String :=
  String.mk (((s.data.dropWhile isWS).reverse.dropWhile isWS).reverse)

/-- Does `hay` start with `needle`? -/
def startsWithL : List Char → List Char → Bool
  | [], _ => true
  | _ :: _, [] => false
  | a :: as, b :: bs => a == b && startsWithL as bs

/-- Does `hay` contain `needle` as a contiguous run? -/
def hasSubList (needle : List Char) : List Char → Bool
  | [] => startsWithL needle []
  | c :: rest => startsWithL needle (c :: rest) || hasSubList needle rest

/-- `hay.includes(needle)`. -/
def strIncludes (hay needle : String) : Bool := hasSubList needle.data hay.data

/-- `String(n).padStart(2, "0")`. -/
def pad2 (n : Nat) : String := if n < 10 then "0" ++ toString n else toString n

/-- `toInputDate` of the source: the local calendar date of a timestamp
as "YYYY-MM-DD". -/
def toInputDate (d : DateTime) : String :=
  toString d.year ++ "-" ++ pad2 d.month ++ "-" ++ pad2 d.day

/-- Month names of the "en"/"en-US" `short` month format. -/
def monthShort : Nat → String
  | 1 => "Jan"
  | 2 => "Feb"
  | 3 => "Mar"
  | 4 => "Apr"
  | 5 => "May"
  | 6 => "Jun"
  | 7 => "Jul"
  | 8 => "Aug"
  | 9 => "Sep"
  | 10 => "Oct"
  | 11 => "Nov"
  | 12 => "Dec"
  | _ => ""

/-- `toLocaleDateString("en-US", {month:"short", day:"numeric",
year:"numeric"})`, e.g. "May 17, 2024". -/
def longDateString (d : DateTime) : String :=
  monthShort d.month ++ " " ++ toString d.day ++ ", " ++ toString d.year

/-- `toLocaleTimeString("en-US", {hour:"numeric", minute:"2-digit"})`,
e.g. "7:45 AM". -/
def shortTimeString (d : DateTime) : String :=
  let h12 := if d.hour % 12 = 0 then 12 else d.hour % 12
  toString h12 ++ ":" ++ pad2 d.minute ++ " " ++ (if 12 ≤ d.hour then "PM" else "AM")

/-- Smallest `k ≤ 5` with `den ∣ 10^k` (5 if none): the length of the
exact decimal expansion. -/
def decExp (den : Nat) : Nat :=
  if den = 1 then 0
  else if 10 % den = 0 then 1
  else if 100 % den = 0 then 2
  else if 1000 % den = 0 then 3
  else if 10000 % den = 0 then 4
  else 5

/-- Left-pad a digit string with zeros to length `k`. -/
def padZeros (k : Nat) (s : String) : String :=
  String.mk (List.replicate (k - s.length) '0') ++ s

/-- `entry.value.toString()`: the shortest plain decimal rendering of the
number (exact for values with a short decimal expansion, which is every
value the application produces). -/
def ratDecString (q : ℚ) : String :=
  let sign := if q < 0 then "-" else ""
  let n := q.num.natAbs
  let k := decExp q.den
  if k = 0 then sign ++ toString n
  else
    let scaled := n * 10 ^ k / q.den
    sign ++ toString (scaled / 10 ^ k) ++ "." ++ padZeros k (toString (scaled % 10 ^ k))

/-! ### Filtering (`filteredEntries` of the source) -/

/-- The filter parameters.  `none` embeds the "All" selections; the empty
string embeds an absent date bound. -/
structure Filters where
  searchTerm : String
  period : Option Period
  category : Option ReadingCategory
  startDate : String
  endDate : String

/-- The search fields of an entry, in the order the source lists them. -/
def searchFields (e : Entry) : List String :=
  [e.period.name, e.note.getD "", ratDecString e.value,
   longDateString e.date, shortTimeString e.date]

/-- `filteredEntries` of the source. -/
def filterReadings (f : Filters) (entries : List Entry) : List Entry :=
  let term := toLowerStr (trimStr f.searchTerm)
  entries.filter fun e =>
    let entryDate := toInputDate e.date
    if f.startDate ≠ "" ∧ entryDate < f.startDate then false
    else if f.endDate ≠ "" ∧ f.endDate < entryDate then false
    else if (match f.period with
             | some p => decide (e.period ≠ p)
             | none => false) then false
    else if (match f.category with
             | some c => decide (getReadingCategory e.value ≠ c)
             | none => false) then false
    else if term = "" then true
    else (searchFields e).any fun field => strIncludes (toLowerStr field) term

/-! ### C10: filtering is an order-preserving sublist, hence idempotent -/

/-- C10: for every collection and every filter combination, the output of
`filterReadings` is a sublist (order-preserving subsequence, no
duplication, no new elements) of the input, and filtering twice with the
same parameters yields the same list as filtering once. -/
theorem C10_filter_sublist_idempotent (f : Filters) (l : List Entry) :
    (filterReadings f l).Sublist l
    ∧ filterReadings f (filterReadings f l) = filterReadings f l := by
  constructor
  · exact List.filter_sublist l
  · show List.filter _ (List.filter _ l) = List.filter _ l
    rw [List.filter_filter]
    exact List.filter_congr fun a _ => Bool.and_self _

/-! ### C3: filter membership characterization -/

/-- C3 counterexample input: a whitespace-only search term. -/
def c3Filters : Filters := ⟨"  ", none, none, "", ""⟩

/-- C3 counterexample entry. -/
def c3Entry : Entry := ⟨"1", 5, ⟨2024, 5, 17, 7, 45⟩, .Fasting, none⟩

/-- C3 counterexample: with the non-empty search term `"  "` (two
spaces), the entry is kept by the code (the term is trimmed to the empty
string, deactivating the text predicate), although the term appears
case-insensitively in none of the five search fields — so membership is
not equivalent to the claim's conjunction of predicates. -/
theorem C3_counterexample :
    c3Filters.searchTerm ≠ ""
    ∧ c3Entry ∈ filterReadings c3Filters [c3Entry]
    ∧ ((searchFields c3Entry).any fun field =>
        strIncludes (toLowerStr field) (toLowerStr c3Filters.searchTerm)) = false := by
  refine ⟨by decide, by decide, by decide⟩

/-- C3 (amended): a reading is in the output of `filterReadings` iff it
is in the input and satisfies all active predicates — local calendar date
within `[startDate, endDate]` inclusive (absent bound unbounded), period
equal to an active period filter, derived category equal to an active
category filter, and, when the search term is non-empty *after
trimming*, the trimmed term appears case-insensitively as a substring of
at least one of: period name, note text, value as a plain decimal
string, the long date string, or the short time string. -/
theorem C3_filter_membership (f : Filters) (l : List Entry) (e : Entry) :
    e ∈ filterReadings f l
      ↔ e ∈ l
        ∧ (f.startDate ≠ "" → f.startDate ≤ toInputDate e.date)
        ∧ (f.endDate ≠ "" → toInputDate e.date ≤ f.endDate)
        ∧ (∀ p, f.period = some p → e.period = p)
        ∧ (∀ c, f.category = some c → getReadingCategory e.value = c)
        ∧ (toLowerStr (trimStr f.searchTerm) ≠ "" →
            ((searchFields e).any fun field =>
              strIncludes (toLowerStr field)
                (toLowerStr (trimStr f.searchTerm))) = true) := by
  simp only [filterReadings, List.mem_filter]
  refine and_congr_right fun _ => ?_
  split_ifs with h1 h2 h3 h4 h5
  · simp only [Bool.false_eq_true, false_iff]
    rintro ⟨c1, -⟩
    exact absurd (c1 h1.1) (not_le.mpr h1.2)
  · simp only [Bool.false_eq_true, false_iff]
    rintro ⟨-, c2, -⟩
    exact absurd (c2 h2.1) (not_le.mpr h2.2)
  · simp only [Bool.false_eq_true, false_iff]
    rintro ⟨-, -, c3, -⟩
    cases hfp : f.period with
    | none => rw [hfp] at h3; exact Bool.false_ne_true h3
    | some p =>
        rw [hfp] at h3
        exact absurd (c3 p hfp) (of_decide_eq_true h3)
  · simp only [Bool.false_eq_true, false_iff]
    rintro ⟨-, -, -, c4, -⟩
    cases hfc : f.category with
    | none => rw [hfc] at h4; exact Bool.false_ne_true h4
    | some c =>
        rw [hfc] at h4
        exact absurd (c4 c hfc) (of_decide_eq_true h4)
  · simp only [true_iff]
    refine ⟨fun hs => ?_, fun hs => ?_, fun p hp => ?_, fun c hc => ?_, fun ht => ?_⟩
    · exact not_lt.mp fun hlt => h1 ⟨hs, hlt⟩
    · exact not_lt.mp fun hlt => h2 ⟨hs, hlt⟩
    · rw [hp] at h3
      simpa using h3
    · rw [hc] at h4
      simpa using h4
    · exact absurd h5 ht
  · constructor
    · intro hany
      refine ⟨fun hs => ?_, fun hs => ?_, fun p hp => ?_, fun c hc => ?_, fun _ => hany⟩
      · exact not_lt.mp fun hlt => h1 ⟨hs, hlt⟩
      · exact not_lt.mp fun hlt => h2 ⟨hs, hlt⟩
      · rw [hp] at h3
        simpa using h3
      · rw [hc] at h4
        simpa using h4
    · rintro ⟨-, -, -, -, c5⟩
      exact c5 h5

/-! ### C5: chart bucketing

The bucket key `toInputDate(entry.date)` is the canonical rendering of
the local calendar date, which is injective, so it is embedded as the
`LocalDate` value itself; the comparator
`new Date(a).getTime() - new Date(b).getTime()` of the bucket sort is
chronological order on calendar dates, embedded as the lexicographic
order `dateLE`. -/

/-- A local calendar date. -/
structure LocalDate where
  year : Nat
  month : Nat
  day : Nat
deriving DecidableEq, Repr

/-- Chronological (lexicographic) order on calendar dates. -/
def dateLE (a b : LocalDate) : Prop :=
  a.year < b.year
  ∨ (a.year = b.year
      ∧ (a.month < b.month ∨ (a.month = b.month ∧ a.day ≤ b.day)))

instance : DecidableRel dateLE := fun a b => by
  unfold dateLE
  infer_instance

instance : IsTotal LocalDate dateLE := ⟨by
  intro a b
  unfold dateLE
  omega⟩

instance : IsTrans LocalDate dateLE := ⟨by
  intro a b c h1 h2
  unfold dateLE at h1 h2 ⊢
  omega⟩

instance : IsAntisymm LocalDate dateLE := ⟨by
  intro a b h1 h2
  cases a
  cases b
  unfold dateLE at h1 h2
  dsimp only at h1 h2
  simp only [LocalDate.mk.injEq]
  omega⟩

/-- The local calendar date of an entry's timestamp (the grouping key of
`chartData`). -/
def entryDate (e : Entry) : LocalDate := ⟨e.date.year, e.date.month, e.date.day⟩

/-- One date bucket of `chartData`. -/
structure Bucket where
  fasting : List ℚ
  preMeal : List ℚ
  postMeal : List ℚ
deriving DecidableEq, Repr

/-- The freshly created bucket of `ensureBucket`. -/
def emptyBucket : Bucket := ⟨[], [], []⟩

/-- The per-period `push` of the `entries.forEach` body. -/
def Bucket.push (b : Bucket) (e : Entry) : Bucket :=
  match e.period with
  | .Fasting => { b with fasting := b.fasting ++ [e.value] }
  | .PreMeal => { b with preMeal := b.preMeal ++ [e.value] }
  | .PostMeal => { b with postMeal := b.postMeal ++ [e.value] }

/-- One step of the `entries.forEach` loop over the insertion-ordered
`Map` of buckets (embedded as an association list). -/
def pushEntry (acc : List (LocalDate × Bucket)) (e : Entry) :
    List (LocalDate × Bucket) :=
  let k := entryDate e
  if acc.any fun p => p.1 == k then
    acc.map fun p => if p.1 = k then (p.1, p.2.push e) else p
  else acc ++ [(k, Bucket.push emptyBucket e)]

/-- The populated bucket map (`buckets` of the source after the
`forEach`). -/
def buckets (l : List Entry) : List (LocalDate × Bucket) := l.foldl pushEntry []

/-- The `average` helper of `chartData`: `undefined` (here `none`) for an
empty sub-group, otherwise the mean rounded to one decimal. -/
def avgOpt (values : List ℚ) : Option ℚ :=
  if values.length = 0 then none
  else some (round10 (values.sum / (values.length : ℚ)))

/-- One plotted point. -/
structure ChartPoint where
  label : String
  fasting : Option ℚ
  preMeal : Option ℚ
  postMeal : Option ℚ
deriving DecidableEq, Repr

/-- The axis label: `Intl.DateTimeFormat("en", {month:"short",
day:"numeric"})`, e.g. "May 17". -/
def dateLabel (d : LocalDate) : String :=
  monthShort d.month ++ " " ++ toString d.day

/-- `chartData` of the source: group by local date, sort buckets
ascending by date, keep the last 8, map to per-period averages. -/
def chartData (entries : List Entry) : List ChartPoint :=
  if entries.isEmpty then []
  else
    let sorted := List.insertionSort (fun a b => dateLE a.1 b.1) (buckets entries)
    (sorted.drop (sorted.length - 8)).map fun p =>
      { label := dateLabel p.1
        fasting := avgOpt p.2.fasting
        preMeal := avgOpt p.2.preMeal
        postMeal := avgOpt p.2.postMeal }

/-- The values of the readings of `l` on date `d` with period `pr`, in
input order (claim side). -/
def valuesOn (l : List Entry) (d : LocalDate) (pr : Period) : List ℚ :=
  (l.filter fun e => entryDate e = d ∧ e.period = pr).map (·.value)

/-- The point the claim prescribes for date `d` (claim side). -/
def specPoint (l : List Entry) (d : LocalDate) : ChartPoint :=
  { label := dateLabel d
    fasting := avgOpt (valuesOn l d .Fasting)
    preMeal := avgOpt (valuesOn l d .PreMeal)
    postMeal := avgOpt (valuesOn l d .PostMeal) }

/-- The distinct dates present in `l`, sorted ascending (claim side). -/
def distinctDatesSorted (l : List Entry) : List LocalDate :=
  List.insertionSort dateLE (l.map entryDate).dedup

/-- The bucket the claim prescribes: `b` with the values of the readings
of `l` on date `k` appended per period. -/
def Bucket.extend (b : Bucket) (l : List Entry) (k : LocalDate) : Bucket :=
  ⟨b.fasting ++ valuesOn l k .Fasting,
   b.preMeal ++ valuesOn l k .PreMeal,
   b.postMeal ++ valuesOn l k .PostMeal⟩

lemma extend_nil (b : Bucket) (k : LocalDate) : b.extend [] k = b := by
  simp [Bucket.extend, valuesOn]

lemma valuesOn_cons (e : Entry) (l : List Entry) (k : LocalDate) (pr : Period) :
    valuesOn (e :: l) k pr
      = (if entryDate e = k ∧ e.period = pr then [e.value] else [])
          ++ valuesOn l k pr := by
  by_cases h : entryDate e = k ∧ e.period = pr
  · simp [valuesOn, List.filter_cons, h]
  · simp [valuesOn, List.filter_cons, h]

lemma extend_cons (b : Bucket) (e : Entry) (l : List Entry) (k : LocalDate) :
    b.extend (e :: l) k = (if entryDate e = k then b.push e else b).extend l k := by
  by_cases hk : entryDate e = k
  · cases hp : e.period <;>
      simp [Bucket.extend, Bucket.push, valuesOn_cons, hk, hp, List.append_assoc]
  · simp [Bucket.extend, valuesOn_cons, hk]

lemma pushEntry_map_fst (acc : List (LocalDate × Bucket)) (e : Entry) :
    (pushEntry acc e).map Prod.fst
      = if entryDate e ∈ acc.map Prod.fst then acc.map Prod.fst
        else acc.map Prod.fst ++ [entryDate e] := by
  by_cases h : entryDate e ∈ acc.map Prod.fst
  · have hany : (acc.any fun p => p.1 == entryDate e) = true := by
      rw [List.any_eq_true]
      rcases List.mem_map.mp h with ⟨p, hp, hfst⟩
      exact ⟨p, hp, by simp [hfst]⟩
    rw [if_pos h]
    simp only [pushEntry, hany, if_true, List.map_map]
    refine List.map_congr_left fun p _ => ?_
    by_cases hpk : p.1 = entryDate e <;> simp [hpk]
  · have hany : (acc.any fun p => p.1 == entryDate e) = false := by
      rw [List.any_eq_false]
      intro p hp
      simp only [beq_iff_eq]
      intro hpk
      exact h (List.mem_map.mpr ⟨p, hp, hpk⟩)
    rw [if_neg h]
    simp only [pushEntry, hany, Bool.false_eq_true, if_false, List.map_append,
      List.map_cons, List.map_nil]

lemma mem_keys_foldl (l : List Entry) :
    ∀ (acc : List (LocalDate × Bucket)) (k : LocalDate),
      k ∈ (l.foldl pushEntry acc).map Prod.fst
        ↔ k ∈ acc.map Prod.fst ∨ k ∈ l.map entryDate := by
  induction l with
  | nil => simp
  | cons e l ih =>
      intro acc k
      rw [List.foldl_cons, ih, pushEntry_map_fst]
      by_cases h : entryDate e ∈ acc.map Prod.fst
      · rw [if_pos h]
        simp only [List.map_cons, List.mem_cons]
        constructor
        · rintro (ha | hl)
          · exact Or.inl ha
          · exact Or.inr (Or.inr hl)
        · rintro (ha | rfl | hl)
          · exact Or.inl ha
          · exact Or.inl h
          · exact Or.inr hl
      · rw [if_neg h]
        simp only [List.mem_append, List.mem_singleton, List.map_cons,
          List.mem_cons]
        tauto

lemma nodup_keys_foldl (l : List Entry) :
    ∀ acc : List (LocalDate × Bucket), (acc.map Prod.fst).Nodup →
      ((l.foldl pushEntry acc).map Prod.fst).Nodup := by
  induction l with
  | nil => intro acc h; simpa using h
  | cons e l ih =>
      intro acc h
      rw [List.foldl_cons]
      apply ih
      rw [pushEntry_map_fst]
      by_cases hmem : entryDate e ∈ acc.map Prod.fst
      · rwa [if_pos hmem]
      · rw [if_neg hmem]
        exact List.Nodup.append h (List.nodup_singleton _)
          (by simpa [List.disjoint_singleton] using hmem)

lemma mem_pushEntry {acc : List (LocalDate × Bucket)} {e : Entry}
    {p : LocalDate × Bucket} (hp : p ∈ pushEntry acc e) :
    (entryDate e ≠ p.1 ∧ p ∈ acc)
    ∨ (entryDate e = p.1
        ∧ ((∃ b₀, (p.1, b₀) ∈ acc ∧ p.2 = b₀.push e)
          ∨ (p.1 ∉ acc.map Prod.fst ∧ p.2 = Bucket.push emptyBucket e))) := by
  by_cases hany : (acc.any fun q => q.1 == entryDate e) = true
  · simp only [pushEntry, hany, if_true] at hp
    rcases List.mem_map.mp hp with ⟨q, hq, huq⟩
    by_cases hqk : q.1 = entryDate e
    · rw [if_pos hqk] at huq
      right
      refine ⟨by rw [← huq]; exact hqk.symm, Or.inl ⟨q.2, ?_, ?_⟩⟩
      · rw [← huq]
        exact hq
      · rw [← huq]
    · rw [if_neg hqk] at huq
      left
      subst huq
      exact ⟨fun hk => hqk hk.symm, hq⟩
  · simp only [pushEntry, hany, Bool.false_eq_true, if_false,
      List.mem_append, List.mem_singleton] at hp
    have hkey : entryDate e ∉ acc.map Prod.fst := by
      intro hmem
      rcases List.mem_map.mp hmem with ⟨q, hq, hfst⟩
      rw [List.any_eq_true] at hany
      exact hany ⟨q, hq, by simp [hfst]⟩
    rcases hp with hp | hp
    · left
      exact ⟨fun hk => hkey (by rw [hk]; exact List.mem_map.mpr ⟨p, hp, rfl⟩), hp⟩
    · right
      subst hp
      exact ⟨rfl, Or.inr ⟨hkey, rfl⟩⟩

lemma content_foldl (l : List Entry) :
    ∀ acc : List (LocalDate × Bucket), ∀ p ∈ l.foldl pushEntry acc,
      (∃ b₀, (p.1, b₀) ∈ acc ∧ p.2 = Bucket.extend b₀ l p.1)
      ∨ (p.1 ∉ acc.map Prod.fst ∧ p.2 = Bucket.extend emptyBucket l p.1) := by
  induction l with
  | nil =>
      intro acc p hp
      left
      exact ⟨p.2, hp, (extend_nil _ _).symm⟩
  | cons e l ih =>
      intro acc p hp
      rw [List.foldl_cons] at hp
      rcases ih (pushEntry acc e) p hp with ⟨b₁, hb₁, hpe⟩ | ⟨hnot, hpe⟩
      · rcases mem_pushEntry hb₁ with ⟨hne, hmem⟩ | ⟨heq, hcase⟩
        · left
          refine ⟨b₁, hmem, ?_⟩
          rw [hpe, extend_cons, if_neg hne]
        · rcases hcase with ⟨b₀, hb₀, hpush⟩ | ⟨hnm, hpush⟩
          · left
            refine ⟨b₀, hb₀, ?_⟩
            have hpush' : b₁ = Bucket.push b₀ e := hpush
            rw [hpe, hpush', extend_cons, if_pos heq]
          · right
            refine ⟨hnm, ?_⟩
            have hpush' : b₁ = Bucket.push emptyBucket e := hpush
            rw [hpe, hpush', extend_cons, if_pos heq]
      · rw [pushEntry_map_fst] at hnot
        have hkeys : p.1 ∉ acc.map Prod.fst ∧ entryDate e ≠ p.1 := by
          by_cases hm : entryDate e ∈ acc.map Prod.fst
          · rw [if_pos hm] at hnot
            exact ⟨hnot, fun hk => hnot (hk ▸ hm)⟩
          · rw [if_neg hm] at hnot
            simp only [List.mem_append, List.mem_singleton, not_or] at hnot
            exact ⟨hnot.1, fun hk => hnot.2 hk.symm⟩
        right
        refine ⟨hkeys.1, ?_⟩
        rw [hpe, extend_cons, if_neg hkeys.2]

lemma buckets_keys_nodup (l : List Entry) : ((buckets l).map Prod.fst).Nodup :=
  nodup_keys_foldl l [] (by simp)

lemma buckets_keys_mem (l : List Entry) (k : LocalDate) :
    k ∈ (buckets l).map Prod.fst ↔ k ∈ l.map entryDate := by
  simpa using mem_keys_foldl l [] k

lemma buckets_content (l : List Entry) :
    ∀ p ∈ buckets l, p.2 = Bucket.extend emptyBucket l p.1 := by
  intro p hp
  rcases content_foldl l [] p hp with ⟨b₀, hb₀, _⟩ | ⟨_, hpe⟩
  · cases hb₀
  · exact hpe

lemma pairs_eq_map {β : Type} (f : LocalDate → β) :
    ∀ (xs : List (LocalDate × β)) (ks : List LocalDate),
      xs.map Prod.fst = ks → (∀ p ∈ xs, p.2 = f p.1) →
      xs = ks.map fun k => (k, f k) := by
  intro xs
  induction xs with
  | nil =>
      rintro ks h _
      rw [← h]
      rfl
  | cons p xs ih =>
      rintro ks h hall
      cases ks with
      | nil => simp at h
      | cons k ks' =>
          simp only [List.map_cons, List.cons.injEq] at h
          obtain ⟨h1, h2⟩ := h
          have hp2 : p.2 = f p.1 := hall p (List.mem_cons_self _ _)
          have hpk : p = (k, f k) := by
            cases p
            simp_all
          rw [List.map_cons, ← hpk,
            ih ks' h2 fun q hq => hall q (List.mem_cons_of_mem _ hq)]

/-- C5: `chartData` produces exactly one point per distinct local
calendar date present in the data — the distinct dates sorted ascending,
keeping only the last 8 — and each point carries, per period, the mean of
that day's readings of that period rounded to one decimal, or no value
(not zero) when the day has no readings of that period. -/
theorem C5_chartData (l : List Entry) :
    chartData l
      = ((distinctDatesSorted l).drop ((distinctDatesSorted l).length - 8)).map
          (specPoint l) := by
  haveI hTot : IsTotal (LocalDate × Bucket) (fun a b => dateLE a.1 b.1) :=
    ⟨fun a b => IsTotal.total (r := dateLE) a.1 b.1⟩
  haveI hTrans : IsTrans (LocalDate × Bucket) (fun a b => dateLE a.1 b.1) :=
    ⟨fun a b c h1 h2 => IsTrans.trans (r := dateLE) a.1 b.1 c.1 h1 h2⟩
  by_cases hl : l = []
  · subst hl
    rfl
  · unfold chartData
    rw [if_neg (by simpa using hl)]
    have hperm : List.Perm
        (List.insertionSort (fun a b => dateLE a.1 b.1) (buckets l))
        (buckets l) := List.perm_insertionSort _ _
    have hsort : List.Sorted (fun a b => dateLE a.1 b.1)
        (List.insertionSort (fun a b => dateLE a.1 b.1) (buckets l)) :=
      List.sorted_insertionSort _ _
    have hkeysnd : ((List.insertionSort (fun a b => dateLE a.1 b.1)
        (buckets l)).map Prod.fst).Nodup :=
      ((hperm.map Prod.fst).nodup_iff).mpr (buckets_keys_nodup l)
    have hkeyssorted : List.Sorted dateLE
        ((List.insertionSort (fun a b => dateLE a.1 b.1)
          (buckets l)).map Prod.fst) :=
      List.pairwise_map.mpr hsort
    have hdnd : (distinctDatesSorted l).Nodup :=
      ((List.perm_insertionSort dateLE _).nodup_iff).mpr (List.nodup_dedup _)
    have hdsorted : List.Sorted dateLE (distinctDatesSorted l) :=
      List.sorted_insertionSort _ _
    have hkeyseq : (List.insertionSort (fun a b => dateLE a.1 b.1)
        (buckets l)).map Prod.fst = distinctDatesSorted l := by
      refine List.eq_of_perm_of_sorted ?_ hkeyssorted hdsorted
      refine (List.perm_ext_iff_of_nodup hkeysnd hdnd).mpr fun k => ?_
      rw [(hperm.map Prod.fst).mem_iff, buckets_keys_mem l k]
      simp only [distinctDatesSorted]
      rw [(List.perm_insertionSort dateLE _).mem_iff, List.mem_dedup]
    have hcontent : ∀ p ∈ List.insertionSort (fun a b => dateLE a.1 b.1)
        (buckets l), p.2 = Bucket.extend emptyBucket l p.1 :=
      fun p hp => buckets_content l p (hperm.subset hp)
    have hpairs : List.insertionSort (fun a b => dateLE a.1 b.1) (buckets l)
        = (distinctDatesSorted l).map
            fun k => (k, Bucket.extend emptyBucket l k) :=
      pairs_eq_map _ _ _ hkeyseq hcontent
    simp only [hpairs, List.length_map, ← List.map_drop, List.map_map]
    refine List.map_congr_left fun k _ => ?_
    simp [specPoint, Bucket.extend, emptyBucket]

/-! ### C6: CSV export -/

/-- `toMeridiemTime` of `handleExportCsv`: 12-hour clock with zero-padded
hour and minute and an AM/PM suffix. -/
def toMeridiemTime (d : DateTime) : String :=
  let suffix := if 12 ≤ d.hour then "PM" else "AM"
  let h := d.hour % 12
  let h2 := if h = 0 then 12 else h
  pad2 h2 ++ ":" ++ pad2 d.minute ++ " " ++ suffix

/-- `date.toISOString().split("T")[0]`: the ISO calendar date.  The
embedding carries no timezone offset, so the UTC calendar date coincides
with the stored components. -/
def isoDateString (d : DateTime) : String :=
  toString d.year ++ "-" ++ pad2 d.month ++ "-" ++ pad2 d.day

/-- `entry.value.toFixed(1)`. -/
def toFixed1 (q : ℚ) : String :=
  let n := jsRound (q * 10)
  (if n < 0 then "-" else "")
    ++ toString (n.natAbs / 10) ++ "." ++ toString (n.natAbs % 10)

/-- `value.replace(/"/g, '""')`: double every internal double quote. -/
def escapeQuotes (s : String) : String :=
  String.mk (s.data.foldr
    (fun c acc => if c = '"' then '"' :: '"' :: acc else c :: acc) [])

/-- `escapeCell` of the source: enclose in double quotes, doubling
internal double quotes. -/
def escapeCell (s : String) : String := "\"" ++ escapeQuotes s ++ "\""

/-- The header row cells. -/
def csvHeader : List String :=
  ["Reading Date", "Reading Time", "Period", "Value (mmol/L)", "Note"]

/-- The cells of one data row. -/
def csvRowCells (e : Entry) : List String :=
  [isoDateString e.date, toMeridiemTime e.date, e.period.name,
   toFixed1 e.value, e.note.getD ""]

/-- `handleExportCsv` of the source, restricted to the text it builds:
`none` embeds the early return (alert) on an empty filtered set. -/
def handleExportCsv (filtered : List Entry) : Option String :=
  if filtered.isEmpty then none
  else
    some (String.intercalate "\r\n"
      ((csvHeader :: (sortEntriesByDateDesc filtered).map csvRowCells).map
        fun row => String.intercalate "," (row.map escapeCell)))

lemma foldr_escape_no_quote :
    ∀ l : List Char, (∀ c ∈ l, c ≠ '"') →
      l.foldr (fun c acc => if c = '"' then '"' :: '"' :: acc else c :: acc) []
        = l := by
  intro l
  induction l with
  | nil => intro _; rfl
  | cons c l ih =>
      intro h
      simp only [List.foldr_cons, if_neg (h c (List.mem_cons_self _ _))]
      rw [ih fun x hx => h x (List.mem_cons_of_mem _ hx)]

lemma escapeQuotes_no_quote {s : String} (h : ∀ c ∈ s.data, c ≠ '"') :
    escapeQuotes s = s := by
  unfold escapeQuotes
  rw [foldr_escape_no_quote s.data h]

/-- C6: for every non-empty filtered set, the CSV text is the quoted
header row `Reading Date, Reading Time, Period, Value (mmol/L), Note`
followed by one row per reading, the readings sorted descending by
timestamp, rows separated by CRLF; each row holds the ISO calendar date,
the zero-padded 12-hour time with AM/PM suffix (hour in `[1, 12]`), the
period name, the value fixed to one decimal and the note, every field
enclosed in double quotes with internal double quotes doubled. -/
theorem C6_csv_export (l : List Entry) (hne : l ≠ []) :
    (∃ s : List Entry, List.Perm s l
      ∧ s.Pairwise (fun a b => b.date.key ≤ a.date.key)
      ∧ handleExportCsv l = some (String.intercalate "\r\n"
          ((csvHeader :: s.map fun e =>
              [isoDateString e.date, toMeridiemTime e.date, e.period.name,
               toFixed1 e.value, e.note.getD ""]).map
            fun row => String.intercalate "," (row.map escapeCell))))
    ∧ (∀ d : DateTime, ∃ h, 1 ≤ h ∧ h ≤ 12
        ∧ toMeridiemTime d
          = pad2 h ++ ":" ++ pad2 d.minute ++ " "
              ++ (if 12 ≤ d.hour then "PM" else "AM"))
    ∧ (∀ cell : String, (∀ c ∈ cell.data, c ≠ '"') →
        escapeCell cell = "\"" ++ cell ++ "\"")
    ∧ escapeCell "a\"b" = "\"a\"\"b\"" := by
  refine ⟨⟨sortEntriesByDateDesc l, ?_, ?_, ?_⟩, ?_, ?_, ?_⟩
  · exact List.perm_insertionSort _ _
  · haveI : IsTotal Entry (fun a b => b.date.key ≤ a.date.key) :=
      ⟨fun a b => le_total _ _⟩
    haveI : IsTrans Entry (fun a b => b.date.key ≤ a.date.key) :=
      ⟨fun a b c h1 h2 => le_trans h2 h1⟩
    exact List.sorted_insertionSort _ _
  · unfold handleExportCsv
    rw [if_neg (by simpa using hne)]
    rfl
  · intro d
    refine ⟨if d.hour % 12 = 0 then 12 else d.hour % 12, ?_, ?_, rfl⟩
    · split_ifs <;> omega
    · have : d.hour % 12 < 12 := Nat.mod_lt _ (by omega)
      split_ifs <;> omega
  · intro cell h
    unfold escapeCell
    rw [escapeQuotes_no_quote h]
  · decide

/-- Witness for C6 at a concrete input. -/
theorem C6_csv_export_witness :
    ([ceEntry 5 1] ≠ [])
    ∧ ((∃ s : List Entry, List.Perm s [ceEntry 5 1]
        ∧ s.Pairwise (fun a b => b.date.key ≤ a.date.key)
        ∧ handleExportCsv [ceEntry 5 1] = some (String.intercalate "\r\n"
            ((csvHeader :: s.map fun e =>
                [isoDateString e.date, toMeridiemTime e.date, e.period.name,
                 toFixed1 e.value, e.note.getD ""]).map
              fun row => String.intercalate "," (row.map escapeCell))))
      ∧ (∀ d : DateTime, ∃ h, 1 ≤ h ∧ h ≤ 12
          ∧ toMeridiemTime d
            = pad2 h ++ ":" ++ pad2 d.minute ++ " "
                ++ (if 12 ≤ d.hour then "PM" else "AM"))
      ∧ (∀ cell : String, (∀ c ∈ cell.data, c ≠ '"') →
          escapeCell cell = "\"" ++ cell ++ "\"")
      ∧ escapeCell "a\"b" = "\"a\"\"b\"") :=
  ⟨by simp, C6_csv_export [ceEntry 5 1] (by simp)⟩
